import Mathlib

/-!
Verification of the task-manager suggestion engine and task model
(`app/services/smart_suggestion_service.py`, `app/models/task.py`,
`app/repository/task_repository.py`, `app/api/endpoints/tasks.py`).

Conventions of the embedding:
* Python `float` confidence arithmetic is modelled with exact rationals `ℚ`;
  every numeric expression involved (`min`, `/`, `*`) is exact at the inputs
  the claims quantify over, so no rounding behaviour is relied upon.
* Python strings are modelled as Lean `String`s; `str.lower`, `str.title`,
  `str.strip` and the regex `\b\w+\b` are modelled character-wise for the
  ASCII range.
* `datetime` values are modelled as integers (a global, totally ordered
  timeline); only their order is ever used by the code.
-/

namespace TaskManager

/-- `TaskStatus` from `app/models/task.py`: `pending`, `in_progress`, `completed`. -/
inductive TaskStatus where
  | pending
  | inProgress
  | completed
deriving DecidableEq, Repr

/-- `TaskPublic` from `app/models/task.py`: the public view of a stored task,
with `id`, `creation_date`, and the `TaskBase` fields `title`, `description`,
`due_date`, `status`.  Dates are modelled as integers. -/
structure TaskPublic where
  id : Nat
  title : String
  description : String
  dueDate : Option Int
  status : TaskStatus
  creationDate : Int
deriving DecidableEq, Repr

instance : Inhabited TaskPublic :=
  ⟨{ id := 0, title := "", description := "", dueDate := none,
     status := TaskStatus.pending, creationDate := 0 }⟩

/-- Modelled from the spec: `TaskSuggestion` is imported by
`smart_suggestion_service.py` and `tasks.py` from `app.models.task`, but its
class definition is not among the provided sources.  Per the spec (§3) a
Suggestion has a suggested title, a confidence score, a reasoning string and
a suggested description; the four keyword arguments used at every
construction site in `smart_suggestion_service.py` match exactly. -/
structure TaskSuggestion where
  suggestedTitle : String
  confidenceScore : ℚ
  reasoning : String
  suggestedDescription : String
deriving DecidableEq, Repr

/-! ## String helpers (ASCII models of Python string operations) -/

/-- Model of Python `str.lower()` (ASCII range). -/
def lowerStr (s : String) : String :=
  (s.data.map Char.toLower).asString

/-- A word character for the regex `\w` in the ASCII range: a letter, a digit
or an underscore. -/
def isWordChar (c : Char) : Bool :=
  c.isAlphanum || c == '_'

/-- One step of splitting a character list into maximal runs of characters
satisfying `p`.  The accumulator holds the run that starts immediately after
the current character, and the finished runs further right. -/
def splitRunsStep (p : Char → Bool) (c : Char) :
    List Char × List (List Char) → List Char × List (List Char) :=
  fun acc =>
    if p c then (c :: acc.1, acc.2)
    else ([], if acc.1 = [] then acc.2 else acc.1 :: acc.2)

/-- Split a string into its maximal runs of characters satisfying `p`,
left to right, discarding everything else. -/
def splitRuns (p : Char → Bool) (s : String) : List String :=
  let r := s.data.foldr (splitRunsStep p) ([], [])
  (if r.1 = [] then r.2 else r.1 :: r.2).map List.asString

/-- Model of `re.findall(r"\b\w+\b", s)`: the maximal runs of word
characters of `s`, in order.  (`\b` at both ends of a maximal `\w+` run is
automatic, so the regex returns exactly the maximal runs.) -/
def wordTokens (s : String) : List String :=
  splitRuns isWordChar s

/-- The maximal runs of alphanumeric characters of `s` (no underscore);
used to state the spec's "alphanumeric-run tokens" reading literally. -/
def alnumTokens (s : String) : List String :=
  splitRuns (fun c => c.isAlphanum) s

/-- Whitespace-delimited tokens of `s` (Python `str.split()`): the maximal
runs of non-whitespace characters. -/
def wsTokens (s : String) : List String :=
  splitRuns (fun c => !c.isWhitespace) s

/-- Helper for `titleCase`: the boolean records whether the previous
character was a letter. -/
def titleCaseAux : Bool → List Char → List Char
  | _, [] => []
  | prevAlpha, c :: cs =>
    if c.isAlpha then
      (if prevAlpha then c.toLower else c.toUpper) :: titleCaseAux true cs
    else
      c :: titleCaseAux false cs

/-- Model of Python `str.title()` (ASCII range): a letter that follows a
non-letter is uppercased, any other letter is lowercased, non-letters are
kept. -/
def titleCase (s : String) : String :=
  (titleCaseAux false s.data).asString

/-! ## `difflib.SequenceMatcher.ratio` on short strings

The titles compared are far below difflib's autojunk threshold (200), so no
junk heuristic is active.  `find_longest_match` then returns the longest
matching contiguous block, ties broken by the smallest start in `a`, then
the smallest start in `b`; `ratio` is `2*M/(len(a)+len(b))` where `M` is the
total size of the recursively collected matching blocks (and `1.0` when both
strings are empty). -/

/-- Length of the common initial run of two character lists. -/
def commonRunLen : List Char → List Char → Nat
  | x :: xs, y :: ys => if x = y then commonRunLen xs ys + 1 else 0
  | _, _ => 0

/-- The longest matching block of `a` and `b` as `(i, j, k)`: `k` maximal,
ties broken by smallest `i`, then smallest `j` (difflib's
`find_longest_match` with no junk). -/
def bestMatch (a b : List Char) : Nat × Nat × Nat :=
  (List.range a.length).foldl
    (fun best i =>
      (List.range b.length).foldl
        (fun best j =>
          let k := commonRunLen (a.drop i) (b.drop j)
          if best.2.2 < k then (i, j, k) else best)
        best)
    (0, 0, 0)

/-- Total size of all matching blocks (difflib's `get_matching_blocks`
recursion): take the longest block, then recurse on the parts left and
right of it.  `fuel` only serves termination; `a.length + b.length + 1`
always suffices because each recursive call strictly shrinks `a ++ b`. -/
def matchTotal : Nat → List Char → List Char → Nat
  | 0, _, _ => 0
  | fuel + 1, a, b =>
    let m := bestMatch a b
    if m.2.2 = 0 then 0
    else
      matchTotal fuel (a.take m.1) (b.take m.2.1) + m.2.2 +
        matchTotal fuel (a.drop (m.1 + m.2.2)) (b.drop (m.2.1 + m.2.2))

/-- `SequenceMatcher(None, a, b).ratio() > 0.6`, decided exactly:
`2*M/(la+lb) > 3/5  ↔  10*M > 3*(la+lb)`; two empty strings have ratio
`1.0 > 0.6`. -/
def ratioGt06 (a b : String) : Bool :=
  let la := a.data.length
  let lb := b.data.length
  if la + lb = 0 then true
  else 3 * (la + lb) < 10 * matchTotal (la + lb + 1) a.data b.data

/-! ## Counting and grouping helpers (Python `Counter` and `defaultdict`) -/

/-- One `Counter` update: bump the count of `w`, appending `(w, 1)` at the
end if `w` is new (Python dict insertion-order semantics). -/
def bumpCount : List (String × Nat) → String → List (String × Nat)
  | [], w => [(w, 1)]
  | (k, c) :: rest, w =>
    if k = w then (k, c + 1) :: rest else (k, c) :: bumpCount rest w

/-- `collections.Counter(l)` as an association list in first-occurrence
order. -/
def counterList (l : List String) : List (String × Nat) :=
  l.foldl bumpCount []

/-- Descending-count order used by `Counter.most_common`. -/
def countGe (x y : String × Nat) : Prop :=
  y.2 ≤ x.2

instance : DecidableRel countGe := fun x y =>
  inferInstanceAs (Decidable (y.2 ≤ x.2))

/-- `Counter.most_common n`: the items stably sorted by count descending,
truncated to `n` (`heapq.nlargest` is documented as equivalent to the
stable `sorted(..., reverse=True)[:n]`). -/
def mostCommon (n : Nat) (items : List (String × Nat)) : List (String × Nat) :=
  (List.insertionSort countGe items).take n

/-- `defaultdict(list)` append: add `t` to the group keyed `k`, creating the
group at the end if absent (dict insertion-order semantics). -/
def groupAppend : List (String × List TaskPublic) → String → TaskPublic →
    List (String × List TaskPublic)
  | [], k, t => [(k, [t])]
  | (g, ts) :: rest, k, t =>
    if g = k then (g, ts ++ [t]) :: rest else (g, ts) :: groupAppend rest k t

/-- One update of the Python dict comprehension `{task.id: task for ...}`:
a task replaces the entry with its id in place, or is appended. -/
def upsertById : List TaskPublic → TaskPublic → List TaskPublic
  | [], t => [t]
  | u :: us, t => if u.id = t.id then t :: us else u :: upsertById us t

/-- `list({task.id: task for task in ts}.values())`: for each id, the last
task carrying it, in first-occurrence order of the ids. -/
def dedupById (ts : List TaskPublic) : List TaskPublic :=
  ts.foldl upsertById []

/-! ## The suggestion service (`smart_suggestion_service.py`) -/

/-- An apostrophe (the reasoning strings of the service quote the matched
word between apostrophes). -/
def apos : String :=
  String.singleton (Char.ofNat 39)

/-- `SmartSuggestionService._title_exists`: whether `title` equals the
title of some task, case-insensitively. -/
def titleExists (tasks : List TaskPublic) (title : String) : Bool :=
  tasks.any (fun task => lowerStr task.title == lowerStr title)

/-- The `for variation in variations: if not self._title_exists(...):
... break` loop: the first candidate title that is not already taken. -/
def firstFresh (tasks : List TaskPublic) : List String → Option String
  | [] => none
  | v :: vs => if titleExists tasks v then firstFresh tasks vs else some v

/-- Exact rational division, written through core `Rat.div` so that the
kernel can evaluate it on concrete inputs (the field-division of `ℚ`
unfolds to the same function). -/
def divQ (a b : ℚ) : ℚ :=
  Rat.div a b

/-- Python's `min` on two confidence scores, as the exact rational
minimum. -/
def minQ (a b : ℚ) : ℚ :=
  if a ≤ b then a else b

/-- The stop-word set of `_analyze_title_patterns`. -/
def stopWords : List String :=
  ["a", "an", "the", "and", "or", "but", "in", "on", "at", "to", "for",
   "of", "with", "by"]

/-- The four title variations tried for a frequent word in
`_analyze_title_patterns`, in order. -/
def patternVariations (word : String) : List String :=
  [titleCase word ++ " Review",
   titleCase word ++ " Follow-up",
   titleCase word ++ " Planning",
   "Weekly " ++ titleCase word ++ " Check"]

/-- The suggestion record built by `_analyze_title_patterns` for word
`w` with count `c` and chosen variation `v`. -/
def mkPatternSuggestion (tasks : List TaskPublic) (w : String) (c : Nat)
    (v : String) : TaskSuggestion :=
  { suggestedTitle := v,
    confidenceScore := minQ (0.8 : ℚ) (divQ (c : ℚ) (tasks.length : ℚ) * 2),
    reasoning := "Based on frequent use of " ++ apos ++ w ++ apos ++ " in "
      ++ toString c ++ " existing tasks",
    suggestedDescription := "Follow-up task related to " ++ w ++ " activities" }

/-- The loop body of `_analyze_title_patterns`'s emission pass: for a
ranked word with its count, append the suggestion built from the first
fresh variation, when the count is at least 2 and some variation is
fresh. -/
def patternEmit (tasks : List TaskPublic) (acc : List TaskSuggestion)
    (wc : String × Nat) : List TaskSuggestion :=
  if 2 ≤ wc.2 then
    match firstFresh tasks (patternVariations wc.1) with
    | some v => acc ++ [mkPatternSuggestion tasks wc.1 wc.2 v]
    | none => acc
  else acc

/-- `SmartSuggestionService._analyze_title_patterns`: tokenize all titles
(lowercased) with `\b\w+\b`, drop stop words and words of length ≤ 2,
count, and for each of the top 3 words with count ≥ 2 emit the first fresh
variation (none if all four are taken). -/
def analyzeTitlePatterns (tasks : List TaskPublic) : List TaskSuggestion :=
  let titleWords := tasks.foldl
    (fun acc task => acc ++ wordTokens (lowerStr task.title)) []
  let filteredWords := titleWords.filter
    (fun word => !stopWords.contains word && 2 < word.length)
  let wordCounts := counterList filteredWords
  (mostCommon 3 wordCounts).foldl (patternEmit tasks) []

/-- The four follow-up variations tried for a theme in
`_analyze_completion_sequences`, in order. -/
def sequenceVariations (theme : String) : List String :=
  [titleCase theme ++ " Analysis and Review",
   titleCase theme ++ " Next Steps Planning",
   titleCase theme ++ " Progress Assessment",
   titleCase theme ++ " Optimization"]

/-- The suggestion record built by `_analyze_completion_sequences` for a
theme group of size `g` out of `completedCount` completed tasks. -/
def mkSequenceSuggestion (completedCount : Nat) (theme : String) (g : Nat)
    (v : String) : TaskSuggestion :=
  { suggestedTitle := v,
    confidenceScore := minQ (0.9 : ℚ) (divQ (g : ℚ) (completedCount : ℚ) * 1.5),
    reasoning := "Follow-up pattern detected: " ++ toString g
      ++ " completed tasks related to " ++ apos ++ theme ++ apos,
    suggestedDescription := "Next logical step after completing " ++ theme
      ++ "-related tasks" }

/-- The loop body of `_analyze_completion_sequences`'s emission pass: for
a theme group of size at least 2, append the suggestion built from the
first fresh follow-up variation. -/
def seqEmit (tasks : List TaskPublic) (completedCount : Nat)
    (acc : List TaskSuggestion) (g : String × List TaskPublic) :
    List TaskSuggestion :=
  if 2 ≤ g.2.length then
    match firstFresh tasks (sequenceVariations g.1) with
    | some v => acc ++ [mkSequenceSuggestion completedCount g.1 g.2.length v]
    | none => acc
  else acc

/-- The loop body of `_analyze_completion_sequences`'s grouping pass:
`words = re.findall(r"\b\w+\b", task.title.lower()); if words: theme =
words[0]; if len(theme) > 3: theme_groups[theme].append(task)`. -/
def seqThemeStep (groups : List (String × List TaskPublic)) (task : TaskPublic) :
    List (String × List TaskPublic) :=
  match wordTokens (lowerStr task.title) with
  | [] => groups
  | theme :: _ =>
    if 3 < theme.length then groupAppend groups theme task else groups

/-- `SmartSuggestionService._analyze_completion_sequences`: among completed
tasks (nothing if fewer than 2), group by the first `\w+` token of the
lowercased title when its length exceeds 3, and for each group of size ≥ 2
emit the first fresh follow-up variation. -/
def analyzeCompletionSequences (tasks : List TaskPublic) : List TaskSuggestion :=
  let completedTasks := tasks.filter (fun t => t.status == TaskStatus.completed)
  if completedTasks.length < 2 then []
  else
    let themeGroups := completedTasks.foldl seqThemeStep []
    themeGroups.foldl (seqEmit tasks completedTasks.length) []

/-- The four time variations tried for a similarity group in
`_analyze_frequency_patterns`, in order. -/
def timeVariations (base : String) : List String :=
  ["Monthly " ++ titleCase base,
   "Weekly " ++ titleCase base,
   titleCase base ++ " - Next Quarter",
   "Annual " ++ titleCase base]

/-- The suggestion record built by `_analyze_frequency_patterns` for a
group with `u` unique tasks out of `total`. -/
def mkFrequencySuggestion (total : Nat) (u : Nat) (v : String) : TaskSuggestion :=
  { suggestedTitle := v,
    confidenceScore := minQ (0.85 : ℚ) (divQ (u : ℚ) (total : ℚ) * 2),
    reasoning := "Recurring pattern detected: " ++ toString u
      ++ " similar tasks found",
    suggestedDescription :=
      "Recurring task based on pattern analysis of similar activities" }

/-- The body of the nested `for i ... for j in titles[i+1:]` loop of
`_analyze_frequency_patterns`: whenever the similarity ratio of the
lowercased titles at positions `i < j` exceeds 0.6, append both tasks to
the group keyed by the shorter of the two titles (the `i`-th on equal
lengths). -/
def freqPairStep (tasks : List TaskPublic) (titles : List String) (i : Nat)
    (groups : List (String × List TaskPublic)) (j : Nat) :
    List (String × List TaskPublic) :=
  let title := titles.getD i ""
  let otherTitle := titles.getD j ""
  if ratioGt06 title otherTitle then
    let baseTitle :=
      if title.length ≤ otherTitle.length then title else otherTitle
    groupAppend
      (groupAppend groups baseTitle (tasks.getD i default))
      baseTitle (tasks.getD j default)
  else groups

/-- The similarity-group pass of `_analyze_frequency_patterns`: run the
pair step over every pair of positions `i < j`. -/
def buildFreqGroups (tasks : List TaskPublic) : List (String × List TaskPublic) :=
  let titles := tasks.map (fun task => lowerStr task.title)
  (List.range tasks.length).foldl
    (fun groups i =>
      ((List.range tasks.length).drop (i + 1)).foldl
        (freqPairStep tasks titles i) groups)
    []

/-- The loop body of `_analyze_frequency_patterns`'s emission pass: for a
similarity group with at least 2 entries, append the suggestion built from
the first fresh time variation, with confidence from the number of unique
(by id) tasks in the group. -/
def freqEmit (tasks : List TaskPublic) (acc : List TaskSuggestion)
    (g : String × List TaskPublic) : List TaskSuggestion :=
  if 2 ≤ g.2.length then
    let uniqueTasks := dedupById g.2
    match firstFresh tasks (timeVariations g.1) with
    | some v => acc ++ [mkFrequencySuggestion tasks.length uniqueTasks.length v]
    | none => acc
  else acc

/-- `SmartSuggestionService._analyze_frequency_patterns`: build the
similarity groups, and for each group with at least 2 entries emit the
first fresh time variation, with confidence from the number of unique
(by id) tasks in the group. -/
def analyzeFrequencyPatterns (tasks : List TaskPublic) : List TaskSuggestion :=
  (buildFreqGroups tasks).foldl (freqEmit tasks) []

/-- `SmartSuggestionService._get_default_suggestions`: the two fixed
default suggestions. -/
def defaultSuggestions : List TaskSuggestion :=
  [{ suggestedTitle := "Weekly Planning Session",
     confidenceScore := 0.6,
     reasoning := "Default suggestion for task organization",
     suggestedDescription := "Plan and organize tasks for the upcoming week" },
   { suggestedTitle := "Progress Review Meeting",
     confidenceScore := 0.5,
     reasoning := "Default suggestion for progress tracking",
     suggestedDescription := "Review progress on current projects and tasks" }]

/-- Descending-confidence order used by `generate_suggestions`'s
`sort(key=..., reverse=True)`. -/
def confGe (x y : TaskSuggestion) : Prop :=
  y.confidenceScore ≤ x.confidenceScore

instance : DecidableRel confGe := fun x y =>
  inferInstanceAs (Decidable (y.confidenceScore ≤ x.confidenceScore))

/-- The concatenation, in producer order, of the first two candidates of
each analyzer (`suggestions.extend(...[:2])` three times). -/
def concatCandidates (tasks : List TaskPublic) : List TaskSuggestion :=
  (analyzeTitlePatterns tasks).take 2
    ++ (analyzeCompletionSequences tasks).take 2
    ++ (analyzeFrequencyPatterns tasks).take 2

/-- `SmartSuggestionService.generate_suggestions` on a task snapshot:
defaults when fewer than 2 tasks, otherwise the candidates of the three
analyzers, stably sorted by confidence descending, truncated to `limit`.
(Python's `list.sort` is stable, and `reverse=True` keeps the original
order of elements with equal keys.) -/
def generateSuggestions (tasks : List TaskPublic) (limit : Nat) :
    List TaskSuggestion :=
  if tasks.length < 2 then defaultSuggestions
  else (List.insertionSort confGe (concatCandidates tasks)).take limit

/-! ## Spec-side readings of the analyzers

These definitions follow the wording of the claims (spec §4.1) rather than
the source, to be compared with the source-translated analyzers above.
They are parameterised over the tokenizer / theme extractor, which is
exactly where claim and source may differ. -/

/-- The title-pattern pipeline as the spec states it, with the tokenizer as
a parameter: tokenize every lowercased title, discard stop words and tokens
of length ≤ 2, rank by frequency, and for each of the top 3 tokens with
count ≥ 2 emit the first variation whose title is not already taken. -/
def specTitlePatternsTok (tok : String → List String)
    (tasks : List TaskPublic) : List TaskSuggestion :=
  let toks := tasks.foldl (fun acc task => acc ++ tok (lowerStr task.title)) []
  let kept := toks.filter (fun w => !stopWords.contains w && 2 < w.length)
  let ranked := (mostCommon 3 (counterList kept)).filter (fun wc => 2 ≤ wc.2)
  ranked.filterMap (fun wc =>
    ((patternVariations wc.1).find? (fun v => !titleExists tasks v)).map
      (fun v => mkPatternSuggestion tasks wc.1 wc.2 v))

/-- The completion-sequence pipeline as the spec states it, with the theme
extractor as a parameter: among completed tasks (nothing if fewer than 2),
group by theme, and for each group of size ≥ 2 emit the first fresh
variation. -/
def specCompletionSeqTheme (themeOf : String → Option String)
    (tasks : List TaskPublic) : List TaskSuggestion :=
  let completedTasks := tasks.filter (fun t => t.status == TaskStatus.completed)
  if completedTasks.length < 2 then []
  else
    let themeGroups := completedTasks.foldl
      (fun groups task =>
        (themeOf task.title).elim groups (fun theme => groupAppend groups theme task))
      []
    (themeGroups.filter (fun g => 2 ≤ g.2.length)).filterMap (fun g =>
      ((sequenceVariations g.1).find? (fun v => !titleExists tasks v)).map
        (fun v => mkSequenceSuggestion completedTasks.length g.1 g.2.length v))

/-- The claim's theme: the first whitespace-delimited token of the
lowercased title, kept only when its length is strictly greater than 3. -/
def wsTheme (title : String) : Option String :=
  match wsTokens (lowerStr title) with
  | [] => none
  | theme :: _ => if 3 < theme.length then some theme else none

/-- The source's theme: the first `\w+` token of the lowercased title, kept
only when its length is strictly greater than 3. -/
def wordTheme (title : String) : Option String :=
  match wordTokens (lowerStr title) with
  | [] => none
  | theme :: _ => if 3 < theme.length then some theme else none

/-- The frequency pipeline as the claim states it: build the similarity
groups, deduplicate each group by task identifier, and for each group with
at least 2 unique tasks emit the first fresh time variation. -/
def specFrequencyPatterns (tasks : List TaskPublic) : List TaskSuggestion :=
  (((buildFreqGroups tasks).map (fun g => (g.1, dedupById g.2))).filter
      (fun g => 2 ≤ g.2.length)).filterMap
    (fun g =>
      ((timeVariations g.1).find? (fun v => !titleExists tasks v)).map
        (fun v => mkFrequencySuggestion tasks.length g.2.length v))

/-! ## The task model (`app/models/task.py`, `task_repository.py`,
`endpoints/tasks.py`) -/

/-- Model of Python `str.strip()` (ASCII whitespace): drop leading and
trailing whitespace characters. -/
def stripStr (s : String) : String :=
  (((s.data.dropWhile Char.isWhitespace).reverse.dropWhile
      Char.isWhitespace).reverse).asString

/-- The stored `Task` row (`app/models/task.py`, `class Task`). -/
structure Task where
  id : Nat
  title : String
  description : String
  dueDate : Option Int
  status : TaskStatus
  creationDate : Int
deriving DecidableEq, Repr

/-- A raw `PATCH /tasks/{id}` request body: any subset of the updatable
fields (`none` = field absent from the request). -/
structure TaskUpdateBody where
  title : Option String
  description : Option String
  dueDate : Option Int
  status : Option TaskStatus
deriving DecidableEq, Repr

/-- A validated `TaskUpdate` (`app/models/task.py`, `class TaskUpdate`). -/
structure TaskUpdate where
  title : Option String
  description : Option String
  dueDate : Option Int
  status : Option TaskStatus
deriving DecidableEq, Repr

/-- `TaskUpdate.__init__` followed by the pydantic field constraints: strip
a provided title, rejecting it when empty or whitespace-only; strip a
provided description; reject a provided due date lying strictly before
`now`; then the declared length bounds (title ≤ 200, description ≤ 500). -/
def validateTaskUpdate (now : Int) (body : TaskUpdateBody) :
    Except String TaskUpdate := do
  let title ← match body.title with
    | none => pure none
    | some t =>
      let t := stripStr t
      if t = "" then throw "Title cannot be empty or whitespace only"
      else pure (some t)
  let description := body.description.map stripStr
  match body.dueDate with
  | some dd =>
    if dd < now then throw "Due date cannot be in the past" else pure ()
  | none => pure ()
  if title.any (fun t => 200 < t.length) then
    throw "ensure this value has at most 200 characters"
  else if description.any (fun d => 500 < d.length) then
    throw "ensure this value has at most 500 characters"
  else
    pure { title := title, description := description,
           dueDate := body.dueDate, status := body.status }

/-- `TaskRepository.update_task`'s `for field, value in update_data.items():
setattr(task, field, value)`: only the supplied fields change. -/
def applyTaskUpdate (t : Task) (u : TaskUpdate) : Task :=
  { t with
    title := u.title.getD t.title,
    description := u.description.getD t.description,
    dueDate := match u.dueDate with
      | some d => some d
      | none => t.dueDate,
    status := u.status.getD t.status }

/-- `TaskRepository.update_task` over an in-memory store: find the row by
id, apply the validated update, commit the new store. -/
def updateTaskInStore (store : List Task) (taskId : Nat) (u : TaskUpdate) :
    Option (List Task × Task) :=
  match store.find? (fun t => t.id == taskId) with
  | none => none
  | some t =>
    let updated := applyTaskUpdate t u
    some (store.map (fun s => if s.id == taskId then updated else s), updated)

/-- The transport outcome of a `PATCH /tasks/{id}` request. -/
inductive PatchOutcome where
  | validationError (msg : String)
  | notFound
  | ok (task : Task)
deriving DecidableEq, Repr

/-- `PATCH /tasks/{id}` (`patch_task` in `endpoints/tasks.py`): the body is
validated into a `TaskUpdate` at the transport boundary — construction
time, `TaskUpdate.__init__` — so a validation failure is reported before
the repository is touched; otherwise the repository updates the row (404
when absent).  Returns the outcome together with the resulting store. -/
def patchTask (now : Int) (store : List Task) (taskId : Nat)
    (body : TaskUpdateBody) : PatchOutcome × List Task :=
  match validateTaskUpdate now body with
  | Except.error msg => (PatchOutcome.validationError msg, store)
  | Except.ok u =>
    match updateTaskInStore store taskId u with
    | none => (PatchOutcome.notFound, store)
    | some (store', updated) => (PatchOutcome.ok updated, store')

/-- A raw `POST /tasks` request body (`TaskCreate`): title required, the
rest optional. -/
structure TaskCreateBody where
  title : String
  description : Option String
  dueDate : Option Int
  status : Option TaskStatus
deriving DecidableEq, Repr

/-- `TaskBase.__init__` followed by the pydantic field constraints, for a
create request: strip a non-empty title, rejecting it when whitespace-only;
normalise the description (strip, empty when absent); reject a due date
strictly before `now`; then the declared bounds (title between 1 and 200,
description ≤ 500). -/
def validateTaskCreate (now : Int) (body : TaskCreateBody) :
    Except String (String × String) := do
  let title := if body.title = "" then body.title else stripStr body.title
  if body.title ≠ "" ∧ stripStr body.title = "" then
    throw "Title cannot be empty or whitespace only"
  let description := (body.description.map stripStr).getD ""
  match body.dueDate with
  | some dd =>
    if dd < now then throw "Due date cannot be in the past" else pure ()
  | none => pure ()
  if title.length = 0 then
    throw "ensure this value has at least 1 characters"
  else if 200 < title.length then
    throw "ensure this value has at most 200 characters"
  else if 500 < description.length then
    throw "ensure this value has at most 500 characters"
  else
    pure (title, description)

/-- `TaskRepository.create_task` building a `Task` row.  `Task` declares
`creation_date: datetime = Field(default=datetime.now(timezone.utc), ...)`:
the default expression is evaluated a single time, when
`app/models/task.py` is first imported, so `classLoadTime` names that one
fixed timestamp.  `callTime` is the wall-clock time at which this create
request runs; the code consults it for due-date validation only — no
`default_factory` is used, so the stored `creation_date` is always
`classLoadTime`. -/
def createTask (classLoadTime : Int) (callTime : Int) (nextId : Nat)
    (body : TaskCreateBody) : Except String Task :=
  match validateTaskCreate callTime body with
  | Except.error msg => Except.error msg
  | Except.ok (title, description) =>
    Except.ok
      { id := nextId, title := title, description := description,
        dueDate := body.dueDate,
        status := body.status.getD TaskStatus.pending,
        creationDate := classLoadTime }

/-! ## General lemmas -/

theorem foldl_body_congr {α β : Type} (f g : α → β → α)
    (h : ∀ a b, f a b = g a b) :
    ∀ (l : List β) (a : α), l.foldl f a = l.foldl g a := by
  intro l
  induction l with
  | nil => intro a; rfl
  | cons x xs ih => intro a; simp only [List.foldl_cons, h, ih]

theorem firstFresh_eq_find (tasks : List TaskPublic) (vs : List String) :
    firstFresh tasks vs = vs.find? (fun v => !titleExists tasks v) := by
  induction vs with
  | nil => rfl
  | cons v vs ih =>
    by_cases h : titleExists tasks v
    · simp [firstFresh, List.find?_cons, h, ih]
    · simp [firstFresh, List.find?_cons, h]

theorem firstFresh_some_not_exists {tasks : List TaskPublic} {vs : List String}
    {v : String} (h : firstFresh tasks vs = some v) :
    titleExists tasks v = false := by
  induction vs with
  | nil => simp [firstFresh] at h
  | cons w ws ih =>
    by_cases hw : titleExists tasks w
    · exact ih (by simpa [firstFresh, hw] using h)
    · have : w = v := by simpa [firstFresh, hw] using h
      subst this
      simpa using hw

/-- `patternEmit` folded over a list, as `filter` plus `filterMap`. -/
theorem patternEmit_foldl (tasks : List TaskPublic) :
    ∀ (items : List (String × Nat)) (acc : List TaskSuggestion),
      items.foldl (patternEmit tasks) acc
        = acc ++ (items.filter (fun wc => 2 ≤ wc.2)).filterMap
            (fun wc =>
              ((patternVariations wc.1).find? (fun v => !titleExists tasks v)).map
                (fun v => mkPatternSuggestion tasks wc.1 wc.2 v)) := by
  intro items
  induction items with
  | nil => intro acc; simp
  | cons wc items ih =>
    intro acc
    by_cases hp : 2 ≤ wc.2
    · cases hg : firstFresh tasks (patternVariations wc.1) with
      | none =>
        rw [firstFresh_eq_find] at hg
        simp [patternEmit, firstFresh_eq_find, hp, hg, ih]
      | some v =>
        rw [firstFresh_eq_find] at hg
        simp [patternEmit, firstFresh_eq_find, hp, hg, ih]
    · simp [patternEmit, hp, ih]

/-- `seqEmit` folded over a list, as `filter` plus `filterMap`. -/
theorem seqEmit_foldl (tasks : List TaskPublic) (completedCount : Nat) :
    ∀ (items : List (String × List TaskPublic)) (acc : List TaskSuggestion),
      items.foldl (seqEmit tasks completedCount) acc
        = acc ++ (items.filter (fun g => 2 ≤ g.2.length)).filterMap
            (fun g =>
              ((sequenceVariations g.1).find? (fun v => !titleExists tasks v)).map
                (fun v => mkSequenceSuggestion completedCount g.1 g.2.length v)) := by
  intro items
  induction items with
  | nil => intro acc; simp
  | cons g items ih =>
    intro acc
    by_cases hp : 2 ≤ g.2.length
    · cases hg : firstFresh tasks (sequenceVariations g.1) with
      | none =>
        rw [firstFresh_eq_find] at hg
        simp [seqEmit, firstFresh_eq_find, hp, hg, ih]
      | some v =>
        rw [firstFresh_eq_find] at hg
        simp [seqEmit, firstFresh_eq_find, hp, hg, ih]
    · simp [seqEmit, hp, ih]

/-- `freqEmit` folded over a list, as `filter` plus `filterMap`. -/
theorem freqEmit_foldl (tasks : List TaskPublic) :
    ∀ (items : List (String × List TaskPublic)) (acc : List TaskSuggestion),
      items.foldl (freqEmit tasks) acc
        = acc ++ (items.filter (fun g => 2 ≤ g.2.length)).filterMap
            (fun g =>
              ((timeVariations g.1).find? (fun v => !titleExists tasks v)).map
                (fun v =>
                  mkFrequencySuggestion tasks.length (dedupById g.2).length v)) := by
  intro items
  induction items with
  | nil => intro acc; simp
  | cons g items ih =>
    intro acc
    by_cases hp : 2 ≤ g.2.length
    · cases hg : firstFresh tasks (timeVariations g.1) with
      | none =>
        rw [firstFresh_eq_find] at hg
        simp [freqEmit, firstFresh_eq_find, hp, hg, ih]
      | some v =>
        rw [firstFresh_eq_find] at hg
        simp [freqEmit, firstFresh_eq_find, hp, hg, ih]
    · simp [freqEmit, hp, ih]

/-- The source title-pattern analyzer coincides with the spec pipeline once
the spec's tokenizer is corrected to `\w+` runs. -/
theorem titlePatterns_eq_specW (tasks : List TaskPublic) :
    analyzeTitlePatterns tasks = specTitlePatternsTok wordTokens tasks := by
  simp only [analyzeTitlePatterns, specTitlePatternsTok, firstFresh_eq_find]
  exact (patternEmit_foldl tasks _ []).trans (List.nil_append _)

/-- Pointwise: the source's grouping step is grouping by `wordTheme`. -/
theorem seqThemeStep_eq_wordTheme (groups : List (String × List TaskPublic))
    (task : TaskPublic) :
    seqThemeStep groups task =
      (wordTheme task.title).elim groups
        (fun theme => groupAppend groups theme task) := by
  unfold seqThemeStep wordTheme
  cases wordTokens (lowerStr task.title) with
  | nil => rfl
  | cons theme rest =>
    by_cases hl : 3 < theme.length
    · simp [hl]
    · simp [hl]

/-- The source completion-sequence analyzer coincides with the spec pipeline
once the spec's theme is corrected to the first `\w+` token. -/
theorem completionSequences_eq_specW (tasks : List TaskPublic) :
    analyzeCompletionSequences tasks = specCompletionSeqTheme wordTheme tasks := by
  simp only [analyzeCompletionSequences, specCompletionSeqTheme, firstFresh_eq_find]
  by_cases h :
      (tasks.filter (fun t => t.status == TaskStatus.completed)).length < 2
  · simp [h]
  · simp only [if_neg h]
    have hgroups :
        (tasks.filter (fun t => t.status == TaskStatus.completed)).foldl
            seqThemeStep [] =
          (tasks.filter (fun t => t.status == TaskStatus.completed)).foldl
            (fun groups task =>
              (wordTheme task.title).elim groups
                (fun theme => groupAppend groups theme task)) [] :=
      foldl_body_congr _ _ seqThemeStep_eq_wordTheme _ []
    rw [hgroups]
    exact (seqEmit_foldl tasks _ _ []).trans (List.nil_append _)

/-- A list containing two distinct elements has length at least 2. -/
theorem two_le_length_of_mem_ne {α : Type} {l : List α} {a b : α}
    (ha : a ∈ l) (hb : b ∈ l) (hab : a ≠ b) : 2 ≤ l.length := by
  match l with
  | [] => cases ha
  | [x] =>
    rw [List.mem_singleton] at ha hb
    exact absurd (ha.trans hb.symm) hab
  | x :: y :: rest => simp [Nat.le_add_left]

/-- Folding preserves an invariant that every step preserves. -/
theorem foldl_preserve {α β : Type} (P : α → Prop) (f : α → β → α) :
    ∀ (l : List β) (a : α), P a → (∀ a b, b ∈ l → P a → P (f a b)) →
      P (l.foldl f a) := by
  intro l
  induction l with
  | nil => intro a ha _; exact ha
  | cons x xs ih =>
    intro a ha hstep
    exact ih _ (hstep a x (List.mem_cons_self x xs) ha)
      (fun a b hb => hstep a b (List.mem_cons_of_mem x hb))

/-- Membership in a dropped initial segment of `List.range`. -/
theorem mem_drop_range {n k j : Nat} (h : j ∈ (List.range n).drop k) :
    k ≤ j ∧ j < n := by
  rw [List.mem_iff_getElem] at h
  obtain ⟨m, hm, hj⟩ := h
  rw [List.getElem_drop] at hj
  have hlt : k + m < n := by
    have := hm
    simp [List.length_drop, List.length_range] at this
    omega
  rw [List.getElem_range] at hj
  omega

/-- `upsertById` keeps an element carrying any id already present. -/
theorem upsertById_keeps_id {w : Nat} :
    ∀ (acc : List TaskPublic) (t : TaskPublic),
      (∃ u ∈ acc, u.id = w) → ∃ u ∈ upsertById acc t, u.id = w := by
  intro acc
  induction acc with
  | nil => intro t h; simp at h
  | cons x xs ih =>
    intro t h
    obtain ⟨u, hu, huw⟩ := h
    by_cases hx : x.id = t.id
    · simp only [upsertById, if_pos hx]
      rcases List.mem_cons.mp hu with rfl | hu
      · exact ⟨t, List.mem_cons_self _ _, hx ▸ huw⟩
      · exact ⟨u, List.mem_cons_of_mem _ hu, huw⟩
    · simp only [upsertById, if_neg hx]
      rcases List.mem_cons.mp hu with rfl | hu
      · exact ⟨u, List.mem_cons_self _ _, huw⟩
      · obtain ⟨u', hu', hw'⟩ := ih t ⟨u, hu, huw⟩
        exact ⟨u', List.mem_cons_of_mem _ hu', hw'⟩

/-- `upsertById` introduces an element carrying the new task's id. -/
theorem upsertById_has_id :
    ∀ (acc : List TaskPublic) (t : TaskPublic),
      ∃ u ∈ upsertById acc t, u.id = t.id := by
  intro acc
  induction acc with
  | nil => intro t; exact ⟨t, by simp [upsertById]⟩
  | cons x xs ih =>
    intro t
    by_cases hx : x.id = t.id
    · exact ⟨t, by simp [upsertById, if_pos hx]⟩
    · obtain ⟨u, hu, hw⟩ := ih t
      exact ⟨u, by simp [upsertById, if_neg hx, hu], hw⟩

/-- Every id occurring in `ts` occurs in `dedupById ts`. -/
theorem dedupById_has_id {t : TaskPublic} :
    ∀ (ts : List TaskPublic) (acc : List TaskPublic),
      t ∈ ts ∨ (∃ u ∈ acc, u.id = t.id) →
      ∃ u ∈ ts.foldl upsertById acc, u.id = t.id := by
  intro ts
  induction ts with
  | nil =>
    intro acc h
    rcases h with h | h
    · cases h
    · exact h
  | cons x xs ih =>
    intro acc h
    rcases h with h | h
    · rcases List.mem_cons.mp h with rfl | h
      · exact ih _ (Or.inr (upsertById_has_id acc t))
      · exact ih _ (Or.inl h)
    · exact ih _ (Or.inr (upsertById_keeps_id acc x h))

/-- A group whose entries contain two distinct ids keeps at least two
entries after deduplication by id. -/
theorem two_le_dedupById_length {ts : List TaskPublic} {t1 t2 : TaskPublic}
    (h1 : t1 ∈ ts) (h2 : t2 ∈ ts) (hne : t1.id ≠ t2.id) :
    2 ≤ (dedupById ts).length := by
  obtain ⟨u1, hu1, hw1⟩ := dedupById_has_id ts [] (Or.inl h1)
  obtain ⟨u2, hu2, hw2⟩ := dedupById_has_id ts [] (Or.inl h2)
  exact two_le_length_of_mem_ne hu1 hu2
    (fun h => hne (by rw [← hw1, ← hw2, h]))

/-- The invariant maintained over the similarity groups: every group holds
two entries with distinct ids. -/
def FreqInv (gs : List (String × List TaskPublic)) : Prop :=
  ∀ g ∈ gs, ∃ t1 ∈ g.2, ∃ t2 ∈ g.2, t1.id ≠ t2.id

/-- Appending two tasks with distinct ids to the same key preserves the
group invariant. -/
theorem freqInv_groupAppend_pair {t1 t2 : TaskPublic} (k : String)
    (hne : t1.id ≠ t2.id) :
    ∀ gs : List (String × List TaskPublic), FreqInv gs →
      FreqInv (groupAppend (groupAppend gs k t1) k t2) := by
  intro gs
  induction gs with
  | nil =>
    intro _ g hg
    simp [groupAppend] at hg
    subst hg
    exact ⟨t1, by simp, t2, by simp, hne⟩
  | cons p rest ih =>
    intro hinv g hg
    by_cases hk : p.1 = k
    · simp only [groupAppend, if_pos hk] at hg
      rcases List.mem_cons.mp hg with rfl | hg
      · exact ⟨t1, by simp, t2, by simp, hne⟩
      · exact hinv _ (List.mem_cons_of_mem _ hg)
    · simp only [groupAppend, if_neg hk] at hg
      rcases List.mem_cons.mp hg with rfl | hg
      · exact hinv _ (List.mem_cons_self _ _)
      · exact ih (fun g' hg' => hinv g' (List.mem_cons_of_mem _ hg')) g hg

/-- The pair step preserves the group invariant whenever the two appended
tasks carry distinct ids. -/
theorem freqPairStep_inv (tasks : List TaskPublic) (titles : List String)
    (i j : Nat) (gs : List (String × List TaskPublic))
    (hne : (tasks.getD i default).id ≠ (tasks.getD j default).id)
    (h : FreqInv gs) : FreqInv (freqPairStep tasks titles i gs j) := by
  unfold freqPairStep
  dsimp only
  split
  · exact freqInv_groupAppend_pair _ hne _ h
  · exact h

/-- With pairwise-distinct task ids, every similarity group built by
`_analyze_frequency_patterns` holds two entries with distinct ids. -/
theorem buildFreqGroups_inv (tasks : List TaskPublic)
    (hids : (tasks.map TaskPublic.id).Nodup) :
    FreqInv (buildFreqGroups tasks) := by
  have hid_ne : ∀ {i j : Nat}, i < j → j < tasks.length →
      (tasks.getD i default).id ≠ (tasks.getD j default).id := by
    intro i j hij hj
    have hi : i < tasks.length := lt_trans hij hj
    rw [List.getD_eq_getElem tasks default hi,
      List.getD_eq_getElem tasks default hj]
    have hpw := (List.pairwise_iff_getElem).mp hids i j
      (by simpa using hi) (by simpa using hj) hij
    simpa using hpw
  unfold buildFreqGroups
  apply foldl_preserve _ _ _ _ (by intro g hg; cases hg)
  intro gs i hi hgs
  apply foldl_preserve _ _ _ _ hgs
  intro gs' j hj hgs'
  obtain ⟨hij, hjn⟩ := mem_drop_range hj
  exact freqPairStep_inv tasks _ i j gs'
    (hid_ne (Nat.lt_of_succ_le hij) hjn) hgs'

/-- On snapshots with pairwise-distinct task ids, the source frequency
analyzer coincides with the spec pipeline (whose size guard counts unique
tasks after deduplication, where the source counts raw entries). -/
theorem frequencyPatterns_eq_spec (tasks : List TaskPublic)
    (hids : (tasks.map TaskPublic.id).Nodup) :
    analyzeFrequencyPatterns tasks = specFrequencyPatterns tasks := by
  have hinv := buildFreqGroups_inv tasks hids
  have h1 : ∀ g ∈ buildFreqGroups tasks, 2 ≤ g.2.length := by
    intro g hg
    obtain ⟨t1, ht1, t2, ht2, hne⟩ := hinv g hg
    exact two_le_length_of_mem_ne ht1 ht2
      (fun h => hne (congrArg TaskPublic.id h))
  have h2 : ∀ g ∈ buildFreqGroups tasks, 2 ≤ (dedupById g.2).length := by
    intro g hg
    obtain ⟨t1, ht1, t2, ht2, hne⟩ := hinv g hg
    exact two_le_dedupById_length ht1 ht2 hne
  unfold analyzeFrequencyPatterns specFrequencyPatterns
  rw [freqEmit_foldl, List.nil_append]
  rw [List.filter_eq_self.mpr (fun g hg => by simpa using h1 g hg),
    List.filter_eq_self.mpr (fun g hg => by
      obtain ⟨g', hg', rfl⟩ := List.mem_map.mp hg
      simpa using h2 g' hg'),
    List.filterMap_map]
  rfl

instance : IsTotal TaskSuggestion confGe :=
  ⟨fun a b => le_total b.confidenceScore a.confidenceScore⟩

instance : IsTrans TaskSuggestion confGe :=
  ⟨fun _ _ _ hab hbc => le_trans hbc hab⟩

/-- Inserting into a list commutes with filtering on a fixed confidence
value: the new element lands in front of the equal-confidence elements
already present (stability of the insertion). -/
theorem filter_confEq_orderedInsert (a : TaskSuggestion) (c : ℚ) :
    ∀ l : List TaskSuggestion,
      (List.orderedInsert confGe a l).filter (fun s => s.confidenceScore = c) =
        if a.confidenceScore = c then
          a :: l.filter (fun s => s.confidenceScore = c)
        else l.filter (fun s => s.confidenceScore = c) := by
  intro l
  induction l with
  | nil =>
    by_cases hac : a.confidenceScore = c
    · simp [List.orderedInsert, List.filter_cons, hac]
    · simp [List.orderedInsert, List.filter_cons, hac]
  | cons b l ih =>
    by_cases hr : confGe a b
    · rw [List.orderedInsert_of_le _ _ hr]
      by_cases hac : a.confidenceScore = c
      · simp [List.filter_cons, hac]
      · simp [List.filter_cons, hac]
    · have hstep : List.orderedInsert confGe a (b :: l) =
          b :: List.orderedInsert confGe a l := by
        simp [List.orderedInsert, hr]
      rw [hstep]
      by_cases hac : a.confidenceScore = c
      · have hbc : ¬ b.confidenceScore = c :=
          fun hb => hr (le_of_eq (hb.trans hac.symm))
        simp [List.filter_cons, hac, hbc, ih]
      · by_cases hbc : b.confidenceScore = c
        · simp [List.filter_cons, hac, hbc, ih]
        · simp [List.filter_cons, hac, hbc, ih]

/-- Python's stable sort: filtering the sorted list on any fixed confidence
value gives the same sequence as filtering the input, i.e. elements of
equal confidence keep their relative order. -/
theorem filter_confEq_insertionSort (c : ℚ) :
    ∀ l : List TaskSuggestion,
      (List.insertionSort confGe l).filter (fun s => s.confidenceScore = c) =
        l.filter (fun s => s.confidenceScore = c) := by
  intro l
  induction l with
  | nil => rfl
  | cons a l ih =>
    rw [List.insertionSort, filter_confEq_orderedInsert]
    by_cases hac : a.confidenceScore = c
    · simp [List.filter_cons, hac, ih]
    · simp [List.filter_cons, hac, ih]

/-! ## Membership lemmas: what every emitted suggestion looks like -/

theorem mem_analyzeTitlePatterns {tasks : List TaskPublic}
    {s : TaskSuggestion} (hs : s ∈ analyzeTitlePatterns tasks) :
    ∃ w c v,
      (patternVariations w).find? (fun v => !titleExists tasks v) = some v ∧
        s = mkPatternSuggestion tasks w c v := by
  simp only [analyzeTitlePatterns] at hs
  rw [patternEmit_foldl, List.nil_append] at hs
  obtain ⟨wc, _, hmap⟩ := List.mem_filterMap.mp hs
  obtain ⟨v, hfind, hv⟩ := Option.map_eq_some'.mp hmap
  exact ⟨wc.1, wc.2, v, hfind, hv.symm⟩

theorem mem_analyzeCompletionSequences {tasks : List TaskPublic}
    {s : TaskSuggestion} (hs : s ∈ analyzeCompletionSequences tasks) :
    ∃ cc θ g v,
      (sequenceVariations θ).find? (fun v => !titleExists tasks v) = some v ∧
        s = mkSequenceSuggestion cc θ g v := by
  simp only [analyzeCompletionSequences] at hs
  by_cases h :
      (tasks.filter (fun t => t.status == TaskStatus.completed)).length < 2
  · rw [if_pos h] at hs
    cases hs
  · rw [if_neg h] at hs
    rw [seqEmit_foldl, List.nil_append] at hs
    obtain ⟨g, _, hmap⟩ := List.mem_filterMap.mp hs
    obtain ⟨v, hfind, hv⟩ := Option.map_eq_some'.mp hmap
    exact ⟨_, g.1, g.2.length, v, hfind, hv.symm⟩

theorem mem_analyzeFrequencyPatterns {tasks : List TaskPublic}
    {s : TaskSuggestion} (hs : s ∈ analyzeFrequencyPatterns tasks) :
    ∃ b u v,
      (timeVariations b).find? (fun v => !titleExists tasks v) = some v ∧
        s = mkFrequencySuggestion tasks.length u v := by
  simp only [analyzeFrequencyPatterns] at hs
  rw [freqEmit_foldl, List.nil_append] at hs
  obtain ⟨g, _, hmap⟩ := List.mem_filterMap.mp hs
  obtain ⟨v, hfind, hv⟩ := Option.map_eq_some'.mp hmap
  exact ⟨g.1, (dedupById g.2).length, v, hfind, hv.symm⟩

/-- On the data-derived path, every returned suggestion comes from one of
the three analyzers. -/
theorem mem_generateSuggestions {tasks : List TaskPublic} {limit : Nat}
    {s : TaskSuggestion} (h2 : 2 ≤ tasks.length)
    (hs : s ∈ generateSuggestions tasks limit) :
    s ∈ analyzeTitlePatterns tasks ∨ s ∈ analyzeCompletionSequences tasks ∨
      s ∈ analyzeFrequencyPatterns tasks := by
  unfold generateSuggestions at hs
  rw [if_neg (by omega)] at hs
  have hs' : s ∈ List.insertionSort confGe (concatCandidates tasks) :=
    (List.take_sublist _ _).subset hs
  rw [List.mem_insertionSort] at hs'
  unfold concatCandidates at hs'
  rcases List.mem_append.mp hs' with hs'' | hfr
  · rcases List.mem_append.mp hs'' with hp | hsq
    · exact Or.inl ((List.take_sublist _ _).subset hp)
    · exact Or.inr (Or.inl ((List.take_sublist _ _).subset hsq))
  · exact Or.inr (Or.inr ((List.take_sublist _ _).subset hfr))

/-- Confidence scores of the shape `minQ cap q` with a nonnegative cap at
most `0.9` and a nonnegative argument stay inside `[0, 0.9]`. -/
theorem conf_min_bounds (cap q : ℚ) (h0 : 0 ≤ cap) (h9 : cap ≤ 0.9)
    (hq : 0 ≤ q) : 0 ≤ minQ cap q ∧ minQ cap q ≤ 0.9 := by
  unfold minQ
  by_cases h : cap ≤ q
  · rw [if_pos h]
    exact ⟨h0, h9⟩
  · rw [if_neg h]
    exact ⟨hq, le_trans (le_of_not_le h) h9⟩

/-! ## Concrete snapshots used as test inputs -/

/-- A task record with the given id, title and status (the analyzers read
nothing else). -/
def mkTask (i : Nat) (title : String) (st : TaskStatus) : TaskPublic :=
  { id := i, title := title, description := "", dueDate := none,
    status := st, creationDate := 0 }

/-- One stored task whose title equals the first default suggestion. -/
def snapshotDefaultClash : List TaskPublic :=
  [mkTask 1 "Weekly Planning Session" TaskStatus.pending]

/-- Four pending tasks on which the title-pattern analyzer and the
frequency analyzer both emit the title "Monthly Review": the word
"monthly" is the most frequent token, and "Review"/"Reviews" form a
similarity group keyed "review". -/
def snapshotDupTitles : List TaskPublic :=
  [mkTask 1 "Monthly Alpha" TaskStatus.pending,
   mkTask 2 "Monthly Beta" TaskStatus.pending,
   mkTask 3 "Review" TaskStatus.pending,
   mkTask 4 "Reviews" TaskStatus.pending]

/-- Two titles containing an underscore: `\w+` runs and alphanumeric runs
tokenize them differently. -/
def snapshotUnderscore : List TaskPublic :=
  [mkTask 1 "plan_review alpha" TaskStatus.pending,
   mkTask 2 "plan_review beta" TaskStatus.pending]

/-- Two completed tasks whose first whitespace-delimited token
("my-budget") differs from their first `\w+` token ("my"). -/
def snapshotHyphen : List TaskPublic :=
  [mkTask 1 "my-budget review one" TaskStatus.completed,
   mkTask 2 "my-budget review two" TaskStatus.completed]

/-- The spec's frequency scenario: two similar pending shopping tasks. -/
def snapshotGroceries : List TaskPublic :=
  [mkTask 1 "Buy groceries" TaskStatus.pending,
   mkTask 2 "Buy groceries for party" TaskStatus.pending]

/-- The spec's completion scenario: two completed budget tasks. -/
def snapshotBudget : List TaskPublic :=
  [mkTask 1 "Budget Review Q1" TaskStatus.completed,
   mkTask 2 "Budget Planning Q2" TaskStatus.completed]

/-! ## Claim theorems -/

set_option maxRecDepth 10000

attribute [local semireducible] Rat.mul Rat.inv Rat.ofScientific

/-- C1 (counterexample): the claim fails on the code.  On a snapshot whose
single task is titled "Weekly Planning Session", the default path returns a
suggestion whose title equals that existing task title case-insensitively;
and on a four-task snapshot the title-pattern analyzer and the frequency
analyzer both emit "Monthly Review", so the returned list contains two
suggestions with equal titles. -/
theorem claim_C1_counterexample :
    ((generateSuggestions snapshotDefaultClash 5).any
        (fun s => titleExists snapshotDefaultClash s.suggestedTitle) = true) ∧
      (generateSuggestions snapshotDupTitles 10).map
          (fun s => lowerStr s.suggestedTitle) =
        ["monthly monthly beta", "monthly review", "monthly review"] ∧
      ¬ List.Pairwise (fun a b : String => a ≠ b)
          ((generateSuggestions snapshotDupTitles 10).map
            (fun s => lowerStr s.suggestedTitle)) := by
  have h : (generateSuggestions snapshotDupTitles 10).map
      (fun s => lowerStr s.suggestedTitle) =
      ["monthly monthly beta", "monthly review", "monthly review"] := by decide
  refine ⟨by decide, h, ?_⟩
  rw [h]
  decide

/-- C1 (amended): on every snapshot with at least 2 tasks and any limit,
every suggestion returned by `generate_suggestions` has a title that does
not case-insensitively equal any existing task title.  (The returned list
may still contain two suggestions with equal titles, produced by different
analyzers, and on the default path the two fixed default titles are
returned without being checked against the existing task titles.) -/
theorem claim_C1_amended (tasks : List TaskPublic) (limit : Nat)
    (h2 : 2 ≤ tasks.length) :
    ∀ s ∈ generateSuggestions tasks limit,
      titleExists tasks s.suggestedTitle = false := by
  intro s hs
  rcases mem_generateSuggestions h2 hs with hp | hsq | hfr
  · obtain ⟨w, c, v, hfind, rfl⟩ := mem_analyzeTitlePatterns hp
    have hv := List.find?_some hfind
    simpa [mkPatternSuggestion] using hv
  · obtain ⟨cc, θ, g, v, hfind, rfl⟩ := mem_analyzeCompletionSequences hsq
    have hv := List.find?_some hfind
    simpa [mkSequenceSuggestion] using hv
  · obtain ⟨b, u, v, hfind, rfl⟩ := mem_analyzeFrequencyPatterns hfr
    have hv := List.find?_some hfind
    simpa [mkFrequencySuggestion] using hv

/-- C1 (witness): the amended claim at the spec's groceries snapshot and
its top suggestion. -/
theorem claim_C1_amended_witness :
    titleExists snapshotGroceries
      (mkFrequencySuggestion 2 2 "Monthly Buy Groceries").suggestedTitle
      = false :=
  claim_C1_amended snapshotGroceries 5 (by decide) _ (by decide)

/-- C2 (counterexample): with an empty snapshot and limit 1 (a limit inside
[1,10]), `generate_suggestions` returns the two default suggestions, so the
result is longer than the limit. -/
theorem claim_C2_counterexample :
    ([] : List TaskPublic).length < 2 ∧ (1:Nat) ≤ 1 ∧ (1:Nat) ≤ 10 ∧
      ¬ ((generateSuggestions [] 1).length ≤ 1) := by decide

/-- C2 (amended): on snapshots with at least 2 tasks the result length is
at most `limit`; on snapshots with fewer than 2 tasks the default path
returns exactly 2 suggestions regardless of `limit` (exceeding it when
`limit = 1`). -/
theorem claim_C2_amended (tasks : List TaskPublic) (limit : Nat) :
    (2 ≤ tasks.length → (generateSuggestions tasks limit).length ≤ limit) ∧
      (tasks.length < 2 → (generateSuggestions tasks limit).length = 2) := by
  constructor
  · intro h2
    unfold generateSuggestions
    rw [if_neg (by omega)]
    simp [List.length_take]
  · intro h
    unfold generateSuggestions
    rw [if_pos h]
    rfl

/-- C2 (witness): the amended claim at the groceries snapshot with limit 5
and at the empty snapshot with limit 1. -/
theorem claim_C2_amended_witness :
    (generateSuggestions snapshotGroceries 5).length ≤ 5 ∧
      (generateSuggestions [] 1).length = 2 :=
  ⟨(claim_C2_amended snapshotGroceries 5).1 (by decide),
   (claim_C2_amended [] 1).2 (by decide)⟩

/-- C3: a snapshot with fewer than 2 tasks yields exactly the two fixed
default suggestions, "Weekly Planning Session" at confidence 0.6 followed
by "Progress Review Meeting" at confidence 0.5, and nothing else. -/
theorem claim_C3 (tasks : List TaskPublic) (limit : Nat)
    (h : tasks.length < 2) :
    generateSuggestions tasks limit = defaultSuggestions ∧
      defaultSuggestions.map (fun s => (s.suggestedTitle, s.confidenceScore)) =
        [("Weekly Planning Session", (0.6 : ℚ)),
         ("Progress Review Meeting", (0.5 : ℚ))] := by
  constructor
  · unfold generateSuggestions
    rw [if_pos h]
  · decide

/-- C3 (witness): the empty snapshot with the default limit. -/
theorem claim_C3_witness :
    generateSuggestions [] 5 = defaultSuggestions ∧
      defaultSuggestions.map (fun s => (s.suggestedTitle, s.confidenceScore)) =
        [("Weekly Planning Session", (0.6 : ℚ)),
         ("Progress Review Meeting", (0.5 : ℚ))] :=
  claim_C3 [] 5 (by decide)

/-- C4 (counterexample): the claim fails on the code.  The code tokenizes
with `\w+`, which treats the underscore as a word character, while the
claim's "alphanumeric-run tokens" split at underscores: on two tasks titled
"plan_review alpha" and "plan_review beta" the code emits
"Plan_Review Review" where the claim's pipeline emits "Plan Review" and
"Review Review". -/
theorem claim_C4_counterexample :
    2 ≤ snapshotUnderscore.length ∧
      analyzeTitlePatterns snapshotUnderscore ≠
        specTitlePatternsTok alnumTokens snapshotUnderscore := by
  constructor
  · decide
  · decide

/-- C4 (amended): the title-pattern analyzer is exactly the claim's
pipeline with "alphanumeric-run tokens" replaced by "word-character-run
tokens" (alphanumeric or underscore, the regex `\w+`): same stop-word and
length filters, same top-3/count ≥ 2 rule, same confidence formula, same
first-fresh-variation emission. -/
theorem claim_C4_amended (tasks : List TaskPublic) (_h2 : 2 ≤ tasks.length) :
    analyzeTitlePatterns tasks = specTitlePatternsTok wordTokens tasks :=
  titlePatterns_eq_specW tasks

/-- C4 (witness): the amended claim at the underscore snapshot. -/
theorem claim_C4_amended_witness :
    analyzeTitlePatterns snapshotUnderscore =
      specTitlePatternsTok wordTokens snapshotUnderscore :=
  claim_C4_amended snapshotUnderscore (by decide)

/-- C5 (counterexample): the claim fails on the code.  The code's theme is
the first `\w+` token of the title, not the first whitespace-delimited
token: on two completed tasks titled "my-budget review one" and
"my-budget review two" the code's first token is "my" (length 2 ≤ 3, so no
group forms and nothing is emitted), while the claim's
whitespace-delimited theme "my-budget" has length 9 > 3 and yields a
suggestion. -/
theorem claim_C5_counterexample :
    2 ≤ snapshotHyphen.length ∧
      analyzeCompletionSequences snapshotHyphen = [] ∧
      specCompletionSeqTheme wsTheme snapshotHyphen ≠ [] := by
  refine ⟨by decide, by decide, by decide⟩

/-- C5 (amended): the completion-sequence analyzer is exactly the claim's
pipeline with the theme taken as the first word-character-run (`\w+`)
token of the lowercased title (when longer than 3 characters), instead of
the first whitespace-delimited token: same completed-count guard, same
group-size guard, same confidence formula, same first-fresh-variation
emission. -/
theorem claim_C5_amended (tasks : List TaskPublic) (_h2 : 2 ≤ tasks.length) :
    analyzeCompletionSequences tasks = specCompletionSeqTheme wordTheme tasks :=
  completionSequences_eq_specW tasks

/-- C5 (witness): the amended claim at the spec's budget snapshot, where
the analyzer does emit a suggestion. -/
theorem claim_C5_amended_witness :
    analyzeCompletionSequences snapshotBudget =
      specCompletionSeqTheme wordTheme snapshotBudget :=
  claim_C5_amended snapshotBudget (by decide)

/-- C6: on snapshots with at least 2 tasks and pairwise-distinct task ids
(the data model assigns unique identifiers), the frequency analyzer is
exactly the claim's pipeline: every pair of positions `i < j` is
considered, a ratio above 0.6 adds both tasks to the group keyed by the
shorter title (the `i`-th on ties), and each group — all of which hold at
least 2 unique tasks after deduplication by id — yields the claimed
confidence and the first fresh time variation. -/
theorem claim_C6 (tasks : List TaskPublic)
    (hids : (tasks.map TaskPublic.id).Nodup) (_h2 : 2 ≤ tasks.length) :
    analyzeFrequencyPatterns tasks = specFrequencyPatterns tasks :=
  frequencyPatterns_eq_spec tasks hids

/-- C6 (witness): the claim at the spec's groceries snapshot. -/
theorem claim_C6_witness :
    analyzeFrequencyPatterns snapshotGroceries =
      specFrequencyPatterns snapshotGroceries :=
  claim_C6 snapshotGroceries (by decide) (by decide)

/-- C7: the returned list is always sorted by confidence descending
(`Pairwise confGe`), and on the data-derived path it is the `limit`-prefix
of the stable descending sort of the concatenated producer candidates:
filtering the sorted list on any fixed confidence value gives the same
sequence as filtering the concatenation, so equal-confidence suggestions
keep the producer order (pattern, then sequence, then frequency). -/
theorem claim_C7 (tasks : List TaskPublic) (limit : Nat) :
    List.Pairwise confGe (generateSuggestions tasks limit) ∧
      (2 ≤ tasks.length →
        generateSuggestions tasks limit =
          (List.insertionSort confGe (concatCandidates tasks)).take limit ∧
        ∀ c : ℚ,
          (List.insertionSort confGe (concatCandidates tasks)).filter
              (fun s => s.confidenceScore = c) =
            (concatCandidates tasks).filter
              (fun s => s.confidenceScore = c)) := by
  constructor
  · by_cases h : tasks.length < 2
    · unfold generateSuggestions
      rw [if_pos h]
      decide
    · unfold generateSuggestions
      rw [if_neg h]
      exact List.Pairwise.sublist (List.take_sublist _ _)
        (List.sorted_insertionSort confGe _)
  · intro h2
    refine ⟨?_, fun c => filter_confEq_insertionSort c _⟩
    unfold generateSuggestions
    rw [if_neg (by omega)]

/-- C7 (witness): the claim at the spec's groceries snapshot, with the
data-derived-path hypothesis discharged. -/
theorem claim_C7_witness :
    List.Pairwise confGe (generateSuggestions snapshotGroceries 5) ∧
      generateSuggestions snapshotGroceries 5 =
        (List.insertionSort confGe (concatCandidates snapshotGroceries)).take 5 :=
  ⟨(claim_C7 snapshotGroceries 5).1,
   ((claim_C7 snapshotGroceries 5).2 (by decide)).1⟩

/-- Rational division of nonnegative numerator and denominator casts is
nonnegative (`divQ` is the field division of `ℚ`). -/
theorem divQ_cast_nonneg (a b : Nat) : 0 ≤ divQ (a : ℚ) (b : ℚ) := by
  rw [show divQ (a : ℚ) (b : ℚ) = (a : ℚ) / (b : ℚ) from rfl]
  positivity

/-- C8: every confidence score ever returned by `generate_suggestions`
lies in `[0, 0.9]`: the analyzers cap at 0.8, 0.9 and 0.85 respectively
over nonnegative ratios, and the defaults are 0.6 and 0.5. -/
theorem claim_C8 (tasks : List TaskPublic) (limit : Nat) :
    ∀ s ∈ generateSuggestions tasks limit,
      0 ≤ s.confidenceScore ∧ s.confidenceScore ≤ 0.9 := by
  intro s hs
  by_cases h2 : 2 ≤ tasks.length
  · rcases mem_generateSuggestions h2 hs with hp | hsq | hfr
    · obtain ⟨w, c, v, _, rfl⟩ := mem_analyzeTitlePatterns hp
      exact conf_min_bounds _ _ (by norm_num) (by norm_num)
        (mul_nonneg (divQ_cast_nonneg _ _) (by norm_num))
    · obtain ⟨cc, θ, g, v, _, rfl⟩ := mem_analyzeCompletionSequences hsq
      exact conf_min_bounds _ _ (by norm_num) (by norm_num)
        (mul_nonneg (divQ_cast_nonneg _ _) (by norm_num))
    · obtain ⟨b, u, v, _, rfl⟩ := mem_analyzeFrequencyPatterns hfr
      exact conf_min_bounds _ _ (by norm_num) (by norm_num)
        (mul_nonneg (divQ_cast_nonneg _ _) (by norm_num))
  · unfold generateSuggestions at hs
    rw [if_pos (by omega)] at hs
    simp only [defaultSuggestions, List.mem_cons, List.mem_singleton,
      List.not_mem_nil, or_false] at hs
    rcases hs with rfl | rfl
    · exact ⟨by norm_num, by norm_num⟩
    · exact ⟨by norm_num, by norm_num⟩

/-- C8 (witness): the bound at the top groceries suggestion. -/
theorem claim_C8_witness :
    0 ≤ (mkFrequencySuggestion 2 2 "Monthly Buy Groceries").confidenceScore ∧
      (mkFrequencySuggestion 2 2 "Monthly Buy Groceries").confidenceScore
        ≤ 0.9 :=
  claim_C8 snapshotGroceries 5 _ (by decide)

/-- C9: a `PATCH` whose body carries a due date strictly before the
request time fails with a validation error raised at body-construction
time, and the store — hence every field of the stored task — is unchanged:
the repository update is never reached, so no partial write occurs. -/
theorem claim_C9 (now : Int) (store : List Task) (taskId : Nat)
    (body : TaskUpdateBody) (dd : Int) (hdd : body.dueDate = some dd)
    (hpast : dd < now) :
    (∃ msg, (patchTask now store taskId body).1 =
        PatchOutcome.validationError msg) ∧
      (patchTask now store taskId body).2 = store := by
  have hval : ∃ msg, validateTaskUpdate now body = Except.error msg := by
    unfold validateTaskUpdate
    cases hbt : body.title with
    | none =>
      exact ⟨"Due date cannot be in the past", by simp [hdd, hpast]; rfl⟩
    | some t =>
      by_cases hts : stripStr t = ""
      · exact ⟨"Title cannot be empty or whitespace only",
          by simp [hts, hdd, hpast]; rfl⟩
      · exact ⟨"Due date cannot be in the past",
          by simp [hts, hdd, hpast]; rfl⟩
  obtain ⟨msg, hmsg⟩ := hval
  constructor
  · exact ⟨msg, by unfold patchTask; rw [hmsg]⟩
  · unfold patchTask
    rw [hmsg]

/-- A stored task used by the `PATCH` witness. -/
def demoTask : Task :=
  { id := 1, title := "Report", description := "", dueDate := none,
    status := TaskStatus.pending, creationDate := 0 }

/-- A one-task store used by the `PATCH` witness. -/
def demoStore : List Task :=
  [demoTask]

/-- A `PATCH` body carrying only a past due date. -/
def demoPatchBody : TaskUpdateBody :=
  { title := none, description := none, dueDate := some 0, status := none }

/-- C9 (witness): patching task 1 with a due date in the past (0, at
request time 100) is rejected and leaves the store unchanged. -/
theorem claim_C9_witness :
    (∃ msg, (patchTask 100 demoStore 1 demoPatchBody).1 =
        PatchOutcome.validationError msg) ∧
      (patchTask 100 demoStore 1 demoPatchBody).2 = demoStore :=
  claim_C9 100 demoStore 1 demoPatchBody 0 rfl (by decide)

/-- C10: two successful creates at different call times (with no explicit
creation date) store equal `creation_date` values, both the single
timestamp captured when the model class was defined: the column default
`datetime.now(timezone.utc)` is evaluated once at class definition, not
per call. -/
theorem claim_C10 (classLoadTime t1 t2 : Int) (i1 i2 : Nat)
    (b1 b2 : TaskCreateBody) (task1 task2 : Task) (_hne : t1 ≠ t2)
    (h1 : createTask classLoadTime t1 i1 b1 = Except.ok task1)
    (h2 : createTask classLoadTime t2 i2 b2 = Except.ok task2) :
    task1.creationDate = task2.creationDate := by
  have e1 : task1.creationDate = classLoadTime := by
    unfold createTask at h1
    cases hv : validateTaskCreate t1 b1 with
    | error m => rw [hv] at h1; cases h1
    | ok pr =>
      obtain ⟨tt, dsc⟩ := pr
      rw [hv] at h1
      cases h1
      rfl
  have e2 : task2.creationDate = classLoadTime := by
    unfold createTask at h2
    cases hv : validateTaskCreate t2 b2 with
    | error m => rw [hv] at h2; cases h2
    | ok pr =>
      obtain ⟨tt, dsc⟩ := pr
      rw [hv] at h2
      cases h2
      rfl
  rw [e1, e2]

/-- A create body used by the C10 witness. -/
def demoCreateBodyA : TaskCreateBody :=
  { title := "Alpha", description := none, dueDate := none, status := none }

/-- A second create body used by the C10 witness. -/
def demoCreateBodyB : TaskCreateBody :=
  { title := "Beta", description := none, dueDate := none,
    status := some TaskStatus.completed }

/-- C10 (witness): creating "Alpha" at time 100 and "Beta" at time 200
(class loaded at time 42) stores the same creation date on both. -/
theorem claim_C10_witness :
    ({ id := 1, title := "Alpha", description := "", dueDate := none,
       status := TaskStatus.pending, creationDate := 42 } : Task).creationDate
      = ({ id := 2, title := "Beta", description := "", dueDate := none,
           status := TaskStatus.completed, creationDate := 42 } :
          Task).creationDate :=
  claim_C10 42 100 200 1 2 demoCreateBodyA demoCreateBodyB _ _
    (by decide) rfl rfl

end TaskManager
